import Mathlib

/-!
Verification of the mouse-to-steering-wheel translation program
(`src/main.rs`).  The shallow embedding models:

* the event data model (`InputEventKind`, `InputEvent`) after the evdev
  types the program consumes;
* the translation loop of `main` (clamped accumulator, per-event emit);
* the interactive device-selection helper `input_in_range`;
* the startup phase of `main` (scan, select, register the virtual device).

Machine integers (`i32`) are modelled as unbounded `Int`: the Rust code
would panic on `i32` overflow in debug builds, and all properties below
concern the non-overflowing regime the spec describes.
-/

namespace Mouse2Joy

/-- The steering-axis minimum from `main` (`let min: i32 = -4500`). -/
def axisMin : Int := -4500

/-- The steering-axis maximum from `main` (`let max: i32 = 4500`). -/
def axisMax : Int := 4500

/-- evdev `RelativeAxisType`: a wrapped axis code (`REL_X = 0`). -/
structure RelativeAxisType where
  code : Nat
deriving DecidableEq, Repr

def RelativeAxisType.REL_X : RelativeAxisType := ⟨0⟩

/-- The fragment of evdev `InputEventKind` relevant to the program:
the translation loop only compares against `RelAxis REL_X`. -/
inductive InputEventKind where
  | Synchronization
  | Key (code : Nat)
  | RelAxis (axis : RelativeAxisType)
  | AbsAxis (code : Nat)
  | Other (ty code : Nat)
deriving DecidableEq, Repr

/-- An input event: its kind and its `i32` value (`ev.value()`). -/
structure InputEvent where
  kind : InputEventKind
  value : Int
deriving DecidableEq, Repr

/-- The clamp applied in `main` after each per-event addition:
`if steering_position < min { min } else if steering_position > max { max }`. -/
def clampPosition (p : Int) : Int :=
  if p < axisMin then axisMin else if p > axisMax then axisMax else p

/-- Positions of the `steering_position` accumulator immediately after each
event of a batch is processed by the inner `for ev in events` loop of `main`
(a non-qualifying event leaves the accumulator unchanged). -/
def posTrace (sens : Int) : Int → List InputEvent → List Int
  | _, [] => []
  | pos, ev :: rest =>
    if ev.kind = InputEventKind.RelAxis RelativeAxisType.REL_X then
      let pos1 := clampPosition (pos + ev.value * sens)
      pos1 :: posTrace sens pos1 rest
    else
      pos :: posTrace sens pos rest

/-- Final value of the `steering_position` accumulator after the inner
`for ev in events` loop of `main` processes a batch. -/
def runEvents (sens : Int) : Int → List InputEvent → Int
  | pos, [] => pos
  | pos, ev :: rest =>
    if ev.kind = InputEventKind.RelAxis RelativeAxisType.REL_X then
      runEvents sens (clampPosition (pos + ev.value * sens)) rest
    else
      runEvents sens pos rest

/-- A sequence of horizontal relative-motion events with the given deltas. -/
def relXEvents (ds : List Int) : List InputEvent :=
  ds.map (fun d => ⟨InputEventKind.RelAxis RelativeAxisType.REL_X, d⟩)

end Mouse2Joy

namespace Mouse2Joy

/-- Bounds of the clamp: `axisMin ≤ clampPosition p ≤ axisMax`. -/
theorem clampPosition_mem (p : Int) :
    axisMin ≤ clampPosition p ∧ clampPosition p ≤ axisMax := by
  unfold clampPosition axisMin axisMax
  split
  · omega
  · split <;> omega

/-- The clamp is the identity on in-range positions. -/
theorem clampPosition_eq_self (p : Int) (h1 : axisMin ≤ p) (h2 : p ≤ axisMax) :
    clampPosition p = p := by
  unfold clampPosition
  split
  · omega
  · split <;> omega

theorem posTrace_mem_bounds (sens : Int) (evs : List InputEvent) :
    ∀ pos : Int, axisMin ≤ pos → pos ≤ axisMax →
      ∀ p ∈ posTrace sens pos evs, axisMin ≤ p ∧ p ≤ axisMax := by
  induction evs with
  | nil => intro pos _ _ p hp; simp [posTrace] at hp
  | cons ev rest ih =>
    intro pos h1 h2 p hp
    by_cases hk : ev.kind = InputEventKind.RelAxis RelativeAxisType.REL_X
    · rw [posTrace, if_pos hk] at hp
      rcases List.mem_cons.mp hp with h | h
      · subst h; exact clampPosition_mem _
      · exact ih _ (clampPosition_mem _).1 (clampPosition_mem _).2 p h
    · rw [posTrace, if_neg hk] at hp
      rcases List.mem_cons.mp hp with h | h
      · subst h; exact ⟨h1, h2⟩
      · exact ih _ h1 h2 p h

/-- The inner `for ev in events` loop of `main` with emission outcomes made
explicit: `emitOk k` tells whether the `k`-th emission attempt
(`steering_wheel.emit`) succeeds.  The accumulator is updated and clamped
before the emission; an emission failure only logs a warning and
`continue`s to the next event, so the returned accumulator is unaffected
and later events are still processed.  Returns the final accumulator and
the positions actually observed by the virtual device. -/
def runBatchEmit (sens : Int) (emitOk : Nat → Bool) :
    Int → Nat → List InputEvent → Int × List Int
  | pos, _, [] => (pos, [])
  | pos, k, ev :: rest =>
    if ev.kind = InputEventKind.RelAxis RelativeAxisType.REL_X then
      let pos1 := clampPosition (pos + ev.value * sens)
      let r := runBatchEmit sens emitOk pos1 (k + 1) rest
      if emitOk k then (r.1, pos1 :: r.2) else (r.1, r.2)
    else
      runBatchEmit sens emitOk pos k rest

/-- Positions after each qualifying (`REL_X`) event only: the values the
loop attempts to emit, in order. -/
def qualPosTrace (sens : Int) : Int → List InputEvent → List Int
  | _, [] => []
  | pos, ev :: rest =>
    if ev.kind = InputEventKind.RelAxis RelativeAxisType.REL_X then
      let pos1 := clampPosition (pos + ev.value * sens)
      pos1 :: qualPosTrace sens pos1 rest
    else
      qualPosTrace sens pos rest

/-- Keep the elements of a list whose (offset) index satisfies the oracle. -/
def filterByOracle (o : Nat → Bool) : Nat → List Int → List Int
  | _, [] => []
  | k, p :: ps =>
    if o k then p :: filterByOracle o (k + 1) ps else filterByOracle o (k + 1) ps

end Mouse2Joy

namespace Mouse2Joy

/-- C1: For every sequence of input events processed by the translation loop
and every integer sensitivity, the steering position (starting at 0, as in
`main`) satisfies `-4500 ≤ position ≤ 4500` immediately after each event is
processed: the clamp runs after each per-event addition. -/
theorem clamp_invariant (sens : Int) (evs : List InputEvent) (p : Int)
    (hp : p ∈ posTrace sens 0 evs) : axisMin ≤ p ∧ p ≤ axisMax :=
  posTrace_mem_bounds sens evs 0 (by decide) (by decide) p hp

/-- Witness for C1 at a concrete input: the position 20 appears in the trace
of deltas `[10, 20, -5000]` with sensitivity 2, and it is within bounds. -/
theorem clamp_invariant_witness :
    (20 : Int) ∈ posTrace 2 0 (relXEvents [10, 20, -5000]) ∧
      (axisMin ≤ (20 : Int) ∧ (20 : Int) ≤ axisMax) :=
  ⟨by decide, clamp_invariant 2 (relXEvents [10, 20, -5000]) 20 (by decide)⟩

/-- C2: with sensitivity 2 and starting position 0, the deltas
`[10, 20, -5000]` yield positions `[20, 60, -4500]`: the third step clamps
`60 + 2 * (-5000) = -9940` to `-4500`. -/
theorem scenarioA_positions :
    posTrace 2 0 (relXEvents [10, 20, -5000]) = [20, 60, -4500] ∧
      (60 : Int) + 2 * (-5000) = -9940 ∧ clampPosition (-9940) = -4500 := by
  refine ⟨by decide, by decide, by decide⟩

end Mouse2Joy

namespace Mouse2Joy

/-- The hypothesis of the spec's monotonic-accumulation property: starting
at `pos`, no step of the delta sequence produces a pre-clamp value outside
the axis range, i.e. the clamp never changes the accumulator. -/
def noClampTriggered (sens : Int) : Int → List Int → Prop
  | _, [] => True
  | pos, d :: ds =>
    axisMin ≤ pos + d * sens ∧ pos + d * sens ≤ axisMax ∧
      noClampTriggered sens (pos + d * sens) ds

instance noClampTriggered.instDecidable (sens : Int) :
    ∀ (pos : Int) (ds : List Int), Decidable (noClampTriggered sens pos ds)
  | _, [] => .isTrue trivial
  | pos, d :: ds =>
    have := noClampTriggered.instDecidable sens (pos + d * sens) ds
    inferInstanceAs (Decidable (_ ∧ _ ∧ _))

theorem runEvents_relX_noClamp (sens : Int) (ds : List Int) :
    ∀ pos : Int, noClampTriggered sens pos ds →
      runEvents sens pos (relXEvents ds) = pos + sens * ds.sum := by
  induction ds with
  | nil => intro pos _; simp [relXEvents, runEvents]
  | cons d ds ih =>
    intro pos h
    obtain ⟨h1, h2, h3⟩ := h
    rw [relXEvents, List.map_cons, runEvents, if_pos rfl]
    rw [clampPosition_eq_self _ h1 h2]
    rw [show (List.map (fun d => InputEvent.mk
      (InputEventKind.RelAxis RelativeAxisType.REL_X) d) ds) = relXEvents ds from rfl]
    rw [ih _ h3, List.sum_cons]
    ring

/-- C3: for every integer sensitivity `S` and delta sequence `d1..dn`
starting from position 0, if no intermediate step triggers the clamp,
the final position is `S * (d1 + ... + dn)`. -/
theorem monotonic_accumulation (sens : Int) (ds : List Int)
    (h : noClampTriggered sens 0 ds) :
    runEvents sens 0 (relXEvents ds) = sens * ds.sum := by
  have := runEvents_relX_noClamp sens ds 0 h
  omega

/-- Witness for C3 at a concrete input: with sensitivity 2 and deltas
`[10, 20, -5]` no clamp fires and the final position is `2 * 25 = 50`. -/
theorem monotonic_accumulation_witness :
    noClampTriggered 2 0 [10, 20, -5] ∧
      runEvents 2 0 (relXEvents [10, 20, -5]) = 2 * ([10, 20, -5] : List Int).sum :=
  ⟨by decide, monotonic_accumulation 2 [10, 20, -5] (by decide)⟩

/-- C7: an input event whose kind is not the horizontal relative-motion
axis (`REL_X`) leaves the steering position unchanged: processing it first
in a batch is the same as not processing it at all, and the trace records
the unchanged position. -/
theorem ignore_non_relX (sens pos : Int) (ev : InputEvent)
    (evs : List InputEvent)
    (h : ev.kind ≠ InputEventKind.RelAxis RelativeAxisType.REL_X) :
    runEvents sens pos (ev :: evs) = runEvents sens pos evs ∧
      posTrace sens pos (ev :: evs) = pos :: posTrace sens pos evs := by
  constructor
  · rw [runEvents, if_neg h]
  · rw [posTrace, if_neg h]

/-- Witness for C7 at a concrete input: a vertical-wheel-like event
(`RelAxis 8`) with value 3 is ignored by the translation step. -/
theorem ignore_non_relX_witness :
    (InputEvent.mk (InputEventKind.RelAxis ⟨8⟩) 3).kind ≠
        InputEventKind.RelAxis RelativeAxisType.REL_X ∧
      runEvents 2 7 [⟨InputEventKind.RelAxis ⟨8⟩, 3⟩] = runEvents 2 7 [] ∧
        posTrace 2 7 [⟨InputEventKind.RelAxis ⟨8⟩, 3⟩] = 7 :: posTrace 2 7 [] :=
  ⟨by decide, ignore_non_relX 2 7 ⟨InputEventKind.RelAxis ⟨8⟩, 3⟩ [] (by decide)⟩

/-- C5: whatever the emission outcomes, the accumulator ends exactly where
the all-successes run ends (a failed emission still keeps the failed
event's delta — no rollback), and the positions the virtual device observes
are precisely the per-qualifying-event positions whose emission succeeded:
every event after a failed emission is still processed and emitted. -/
theorem emit_failure_continues (sens : Int) (emitOk : Nat → Bool)
    (pos : Int) (k : Nat) (evs : List InputEvent) :
    (runBatchEmit sens emitOk pos k evs).1 = runEvents sens pos evs ∧
      (runBatchEmit sens emitOk pos k evs).2 =
        filterByOracle emitOk k (qualPosTrace sens pos evs) := by
  induction evs generalizing pos k with
  | nil => exact ⟨rfl, rfl⟩
  | cons ev rest ih =>
    by_cases hk : ev.kind = InputEventKind.RelAxis RelativeAxisType.REL_X
    · rw [runBatchEmit, if_pos hk, runEvents, if_pos hk, qualPosTrace, if_pos hk]
      obtain ⟨ha, hb⟩ := ih (clampPosition (pos + ev.value * sens)) (k + 1)
      by_cases ho : emitOk k <;> simp [ho, filterByOracle, ha, hb]
    · rw [runBatchEmit, if_neg hk, runEvents, if_neg hk, qualPosTrace, if_neg hk]
      exact ih pos k

end Mouse2Joy

namespace Mouse2Joy

/-! Device selection (`input_in_range` and the selection phase of `main`).
A line read from stdin is modelled as its characters (`List Char`);
`trimChars`/`parseUsize` embed Rust's `str::trim` and `usize` parsing
(ASCII whitespace; unbounded `Nat` instead of the `usize` overflow check —
an overflowing numeral fails Rust's parse and is re-prompted, while here it
parses and fails the range check, re-prompting identically). -/

def isWhitespaceChar (c : Char) : Bool :=
  c = ' ' || c = '\t' || c = '\n' || c = '\r'

/-- Rust `str::trim`: strip leading and trailing whitespace. -/
def trimChars (s : List Char) : List Char :=
  ((s.dropWhile isWhitespaceChar).reverse.dropWhile isWhitespaceChar).reverse

def digitVal (c : Char) : Option Nat :=
  if '0' ≤ c ∧ c ≤ '9' then some (c.toNat - '0'.toNat) else none

/-- Rust `str::parse::<usize>`: an optional leading `+`, then at least one
decimal digit and nothing else. -/
def parseUsize (s : List Char) : Option Nat :=
  let body := match s with
    | '+' :: rest => rest
    | _ => s
  if body.isEmpty then none
  else body.foldl (fun acc c => acc.bind fun n => (digitVal c).map fun d => n * 10 + d)
    (some 0)

/-- Lines printed to stdout during device selection. -/
inductive OutLine where
  | severalMouses
  | deviceEntry (index : Nat) (nm : String)
  | invalidSelection (lo hi : Nat)
deriving DecidableEq, Repr

/-- The helper `input_in_range` from `main.rs`: read lines until one parses as a
number in `[lo, hi]`; every rejected line prints the invalid-selection
message and loops.  The stdin stream is a finite list of lines; exhausting
it means the function is still blocked in `read_line`, modelled as `none`.
Returns the accepted index with the unread rest of stdin, and the printed
re-prompt lines. -/
def input_in_range (lo hi : Nat) :
    List (List Char) → Option (Nat × List (List Char)) × List OutLine
  | [] => (none, [])
  | line :: rest =>
    match parseUsize (trimChars line) with
    | some index =>
      if lo ≤ index ∧ index ≤ hi then (some (index, rest), [])
      else
        let r := input_in_range lo hi rest
        (r.1, OutLine.invalidSelection lo hi :: r.2)
    | none =>
      let r := input_in_range lo hi rest
      (r.1, OutLine.invalidSelection lo hi :: r.2)

/-- A line that makes `input_in_range lo hi` return: it parses as a number
within `[lo, hi]`. -/
def goodLine (lo hi : Nat) (line : List Char) : Bool :=
  match parseUsize (trimChars line) with
  | some n => decide (lo ≤ n) && decide (n ≤ hi)
  | none => false

/-- An entry of `/dev/input` as the scan in `main` sees it: whether
`Device::open` succeeds, whether `supported_events()` contains
`EventType::RELATIVE`, and the device name (`None` prints as
"Unknown Device"). -/
structure DeviceEntry where
  nm : Option String
  opensOk : Bool
  hasRelative : Bool
deriving DecidableEq, Repr

/-- The scan in `main`: keep the entries that open successfully and
support relative-axis events. -/
def scanDevices (entries : List DeviceEntry) : List DeviceEntry :=
  entries.filter fun d => d.opensOk && d.hasRelative

def displayName (d : DeviceEntry) : String := d.nm.getD "Unknown Device"

/-- The enumerated device list printed when several mice are detected. -/
def promptList (devices : List DeviceEntry) : List OutLine :=
  OutLine.severalMouses ::
    devices.enum.map fun p => OutLine.deviceEntry (p.1 + 1) (displayName p.2)

inductive Mouse2JoyError where
  | NoMouseError
  | FailedToReadInput
deriving DecidableEq, Repr

inductive MainOutcome where
  | fatal (e : Mouse2JoyError)
  | blockedOnInput
  | selected (index : Nat)
deriving DecidableEq, Repr

structure StartupTrace where
  outcome : MainOutcome
  printed : List OutLine
  virtualDeviceRegistered : Bool
deriving DecidableEq, Repr

/-- The startup phase of `main`: scan `/dev/input`, fail with
`NoMouseError` if no candidate remains, print the enumerated list only
when more than one candidate exists, then call
`input_in_range(1, mouse_devices.len())` unconditionally.  The virtual
steering wheel (`create_steering_wheel`) is registered only after a
selection returns (registration failure itself aborts via `unwrap` and is
outside this model). -/
def mainStartup (entries : List DeviceEntry) (stdin : List (List Char)) :
    StartupTrace :=
  let mouse_devices := scanDevices entries
  if mouse_devices.isEmpty then
    ⟨MainOutcome.fatal Mouse2JoyError.NoMouseError, [], false⟩
  else
    let listOut := if mouse_devices.length == 1 then [] else promptList mouse_devices
    let r := input_in_range 1 mouse_devices.length stdin
    match r.1 with
    | none => ⟨MainOutcome.blockedOnInput, listOut ++ r.2, false⟩
    | some (index, _) => ⟨MainOutcome.selected index, listOut ++ r.2, true⟩

theorem goodLine_eq_true (lo hi : Nat) (l : List Char) :
    goodLine lo hi l = true ↔
      ∃ n, parseUsize (trimChars l) = some n ∧ lo ≤ n ∧ n ≤ hi := by
  unfold goodLine
  cases hp : parseUsize (trimChars l) with
  | none => simp
  | some n => simp

theorem input_in_range_none (lo hi : Nat) (ls : List (List Char))
    (h : ∀ l ∈ ls, goodLine lo hi l = false) :
    (input_in_range lo hi ls).1 = none := by
  induction ls with
  | nil => rfl
  | cons line rest ih =>
    have hl : goodLine lo hi line = false := h line (List.mem_cons_self _ _)
    have hrest : ∀ l ∈ rest, goodLine lo hi l = false :=
      fun l hm => h l (List.mem_cons_of_mem _ hm)
    unfold goodLine at hl
    simp only [input_in_range]
    cases hp : parseUsize (trimChars line) with
    | none => exact ih hrest
    | some n =>
      rw [hp] at hl
      by_cases hle : lo ≤ n ∧ n ≤ hi
      · simp [hle.1, hle.2] at hl
      · simpa [hle] using ih hrest

theorem input_in_range_append (lo hi : Nat) (pre : List (List Char))
    (l : List Char) (rest : List (List Char)) (n : Nat)
    (hpre : ∀ x ∈ pre, goodLine lo hi x = false)
    (hp : parseUsize (trimChars l) = some n) (h1 : lo ≤ n) (h2 : n ≤ hi) :
    (input_in_range lo hi (pre ++ l :: rest)).1 = some (n, rest) := by
  induction pre with
  | nil =>
    simp only [List.nil_append, input_in_range, hp]
    rw [if_pos ⟨h1, h2⟩]
  | cons x pre ih =>
    have hx : goodLine lo hi x = false := hpre x (List.mem_cons_self _ _)
    have hrest : ∀ y ∈ pre, goodLine lo hi y = false :=
      fun y hy => hpre y (List.mem_cons_of_mem _ hy)
    unfold goodLine at hx
    simp only [List.cons_append, input_in_range]
    cases hq : parseUsize (trimChars x) with
    | none => exact ih hrest
    | some m =>
      rw [hq] at hx
      by_cases hle : lo ≤ m ∧ m ≤ hi
      · simp [hle.1, hle.2] at hx
      · simpa [hle] using ih hrest

theorem input_in_range_printed (lo hi : Nat) (ls : List (List Char)) :
    ∀ o ∈ (input_in_range lo hi ls).2, o = OutLine.invalidSelection lo hi := by
  induction ls with
  | nil => intro o ho; simp [input_in_range] at ho
  | cons line rest ih =>
    cases hp : parseUsize (trimChars line) with
    | none =>
      intro o ho
      simp only [input_in_range, hp] at ho
      rcases List.mem_cons.mp ho with h | h
      · exact h
      · exact ih o h
    | some n =>
      intro o ho
      simp only [input_in_range, hp] at ho
      by_cases hle : lo ≤ n ∧ n ≤ hi
      · rw [if_pos hle] at ho; simp at ho
      · rw [if_neg hle] at ho
        rcases List.mem_cons.mp ho with h | h
        · exact h
        · exact ih o h

theorem mainStartup_nonempty (entries : List DeviceEntry)
    (stdin : List (List Char)) (h : (scanDevices entries).isEmpty = false) :
    mainStartup entries stdin =
      (let devs := scanDevices entries
      let listOut := if devs.length == 1 then [] else promptList devs
      let r := input_in_range 1 devs.length stdin
      match r.1 with
      | none => ⟨MainOutcome.blockedOnInput, listOut ++ r.2, false⟩
      | some (index, _) =>
          ⟨MainOutcome.selected index, listOut ++ r.2, true⟩) := by
  simp only [mainStartup, h, Bool.false_eq_true, if_false]

theorem mainStartup_single (d : DeviceEntry) (h1 : d.opensOk = true)
    (h2 : d.hasRelative = true) (stdin : List (List Char)) :
    mainStartup [d] stdin =
      (match (input_in_range 1 1 stdin).1 with
      | none =>
          ⟨MainOutcome.blockedOnInput, (input_in_range 1 1 stdin).2, false⟩
      | some (index, _) =>
          ⟨MainOutcome.selected index, (input_in_range 1 1 stdin).2, true⟩) := by
  have hs : scanDevices [d] = [d] := by simp [scanDevices, h1, h2]
  simp only [mainStartup, hs]
  rfl

end Mouse2Joy

namespace Mouse2Joy

/-- C4 counterexample: with exactly one candidate device the selector
prints nothing, but it does **not** complete without interactive input:
`input_in_range(1, 1)` is still called, and with no stdin line available
the selection is blocked rather than completed. -/
theorem single_device_blocks_counterexample :
    (mainStartup [⟨some "m", true, true⟩] []).printed = [] ∧
      (mainStartup [⟨some "m", true, true⟩] []).outcome =
        MainOutcome.blockedOnInput ∧
      MainOutcome.blockedOnInput ≠ MainOutcome.selected 1 :=
  ⟨rfl, rfl, by decide⟩

/-- C4 (amended): with exactly one candidate device the enumerated list is
never printed, but selection still blocks on interactive input: it stays
blocked while stdin offers no line parsing to a number in `[1, 1]`, and
completes with that single device (index 1) once such a line is read. -/
theorem single_device_selection (d : DeviceEntry) (stdin : List (List Char))
    (h1 : d.opensOk = true) (h2 : d.hasRelative = true) :
    (OutLine.severalMouses ∉ (mainStartup [d] stdin).printed ∧
      ∀ i nm, OutLine.deviceEntry i nm ∉ (mainStartup [d] stdin).printed) ∧
      ((∀ l ∈ stdin, goodLine 1 1 l = false) →
        (mainStartup [d] stdin).outcome = MainOutcome.blockedOnInput) ∧
      ∀ pre l rest, stdin = pre ++ l :: rest →
        (∀ x ∈ pre, goodLine 1 1 x = false) → goodLine 1 1 l = true →
        (mainStartup [d] stdin).outcome = MainOutcome.selected 1 := by
  refine ⟨?_, ?_, ?_⟩
  · have hpr : (mainStartup [d] stdin).printed = (input_in_range 1 1 stdin).2 := by
      rw [mainStartup_single d h1 h2 stdin]
      cases hr : (input_in_range 1 1 stdin).1 with
      | none => rfl
      | some p => obtain ⟨i, rem⟩ := p; rfl
    rw [hpr]
    constructor
    · intro hmem
      have := input_in_range_printed 1 1 stdin _ hmem
      simp at this
    · intro i nm hmem
      have := input_in_range_printed 1 1 stdin _ hmem
      simp at this
  · intro hall
    rw [mainStartup_single d h1 h2 stdin, input_in_range_none 1 1 stdin hall]
  · intro pre l rest hsplit hpre hgood
    obtain ⟨n, hpn, hn1, hn2⟩ := (goodLine_eq_true 1 1 l).mp hgood
    have hn : n = 1 := le_antisymm hn2 hn1
    subst hn
    have happ := input_in_range_append 1 1 pre l rest 1 hpre hpn hn1 hn2
    rw [hsplit, mainStartup_single d h1 h2 _, happ]

/-- Witness for the amended C4 at a concrete input: one device, the line
`"1"` on stdin, selection completes with index 1. -/
theorem single_device_selection_witness :
    ((⟨some "m", true, true⟩ : DeviceEntry).opensOk = true ∧
        (⟨some "m", true, true⟩ : DeviceEntry).hasRelative = true) ∧
      (mainStartup [⟨some "m", true, true⟩] [['1']]).outcome =
        MainOutcome.selected 1 :=
  ⟨⟨rfl, rfl⟩,
    (single_device_selection ⟨some "m", true, true⟩ [['1']] rfl rfl).2.2
      [] ['1'] [] rfl (by simp) (by decide)⟩

/-- C8: when the device scan yields zero qualifying candidates, `main`
returns the fatal `NoMouseError` before printing anything and before the
virtual output device is registered. -/
theorem no_mouse_fatal (entries : List DeviceEntry)
    (stdin : List (List Char)) (h : scanDevices entries = []) :
    mainStartup entries stdin =
      ⟨MainOutcome.fatal Mouse2JoyError.NoMouseError, [], false⟩ := by
  simp [mainStartup, h]

/-- Witness for C8 at a concrete input: a directory holding only a
keyboard-like entry (no relative axis) yields zero candidates and the
fatal outcome with no registration. -/
theorem no_mouse_fatal_witness :
    scanDevices [⟨some "keyboard", true, false⟩] = [] ∧
      mainStartup [⟨some "keyboard", true, false⟩] [] =
        ⟨MainOutcome.fatal Mouse2JoyError.NoMouseError, [], false⟩ :=
  ⟨rfl, no_mouse_fatal _ _ rfl⟩

/-- C9: for a candidate count `C > 1`, the selection loop returns no index
while stdin offers only lines that are non-numeric or numerically outside
`[1, C]` — however many there are — and returns the 1-based index `n` as
soon as a line parsing to `n ∈ [1, C]` is read. -/
theorem selection_validation (C : Nat) (_hC : 1 < C) (ls : List (List Char)) :
    ((∀ l ∈ ls, goodLine 1 C l = false) → (input_in_range 1 C ls).1 = none) ∧
      ∀ pre l rest n, ls = pre ++ l :: rest →
        (∀ x ∈ pre, goodLine 1 C x = false) →
        parseUsize (trimChars l) = some n → 1 ≤ n → n ≤ C →
        (input_in_range 1 C ls).1 = some (n, rest) := by
  refine ⟨fun hall => input_in_range_none 1 C ls hall, ?_⟩
  intro pre l rest n hsplit hpre hp h1 h2
  rw [hsplit]
  exact input_in_range_append 1 C pre l rest n hpre hp h1 h2

/-- Witness for C9 at a concrete input: with two candidates, the lines
`"a"` and `"0"` are rejected and the line `" 2"` then selects index 2. -/
theorem selection_validation_witness :
    1 < 2 ∧ (input_in_range 1 2 [['a'], ['0'], [' ', '2']]).1 = some (2, []) :=
  ⟨by decide,
    (selection_validation 2 (by decide) _).2 [['a'], ['0']] [' ', '2'] [] 2 rfl
      (by decide) (by decide) (by decide) (by decide)⟩

end Mouse2Joy

namespace Mouse2Joy

/-- The steady-state `loop` of `main` over a finite schedule of
`fetch_events` outcomes: a successful batch is processed by the inner
event loop, a failed read logs a warning and `continue`s.  The codomain is
`Except Mouse2JoyError Int` because that is `main`'s declared error type:
the loop body never constructs an `error`. -/
def translationLoop (sens : Int) :
    Int → List (Except String (List InputEvent)) → Except Mouse2JoyError Int
  | pos, [] => Except.ok pos
  | pos, Except.ok events :: rest =>
      translationLoop sens (runEvents sens pos events) rest
  | pos, Except.error _ :: rest => translationLoop sens pos rest

/-- C10: once the translation loop runs, no error is ever propagated to
the caller — every finite schedule of fetch outcomes ends in `ok`, a
failed batch read is skipped and the loop simply retries with the same
accumulator, and in particular `FailedToReadInput` (or any other error)
is never raised from the steady-state loop. -/
theorem steady_loop_no_error (sens pos : Int)
    (fetches : List (Except String (List InputEvent))) :
    (∃ p, translationLoop sens pos fetches = Except.ok p) ∧
      (∀ msg, translationLoop sens pos (Except.error msg :: fetches) =
        translationLoop sens pos fetches) ∧
      ∀ e : Mouse2JoyError, translationLoop sens pos fetches ≠ Except.error e := by
  have hok : ∀ (pos : Int) (fs : List (Except String (List InputEvent))),
      ∃ p, translationLoop sens pos fs = Except.ok p := by
    intro pos fs
    induction fs generalizing pos with
    | nil => exact ⟨pos, rfl⟩
    | cons f rest ih =>
      cases f with
      | ok events => exact ih (runEvents sens pos events)
      | error msg => exact ih pos
  refine ⟨hok pos fetches, fun msg => rfl, ?_⟩
  intro e he
  obtain ⟨p, hp⟩ := hok pos fetches
  rw [hp] at he
  exact Except.noConfusion he

end Mouse2Joy

namespace Mouse2Joy

/-- Modelled from the spec: the configuration module (`configuration.rs`,
absent from the sources) supplies a single numeric `sensitivity` scalar,
modelled as a rational.  `main` applies it as `conf.sensitivity as i32`;
Rust's numeric `as` cast of a fractional value to an integer type rounds
toward zero, i.e. floor for non-negative values and ceiling for negative
ones. -/
def configuredSensitivity (q : ℚ) : Int :=
  if 0 ≤ q then ⌊q⌋ else ⌈q⌉

/-- C6 counterexample: with sensitivity 2.75 the per-event multiplier the
code uses is 2 (truncation toward zero), while the nearest representable
integer multiplier is 3 — the claim's round-to-nearest reading is false. -/
theorem sensitivity_nearest_counterexample :
    configuredSensitivity (11 / 4 : ℚ) = 2 ∧ round (11 / 4 : ℚ) = 3 ∧
      runEvents (configuredSensitivity (11 / 4 : ℚ)) 0 (relXEvents [1]) = 2 ∧
      (1 : Int) * configuredSensitivity (11 / 4 : ℚ) ≠
        (1 : Int) * round (11 / 4 : ℚ) := by
  have h2 : configuredSensitivity (11 / 4 : ℚ) = 2 := by
    rw [configuredSensitivity, if_pos (by norm_num)]
    norm_num
  have h3 : round (11 / 4 : ℚ) = 3 := by norm_num [round_eq]
  refine ⟨h2, h3, ?_, ?_⟩
  · rw [h2]; decide
  · rw [h2, h3]; decide

/-- C6 (amended): for every qualifying event the delta is
`event.value * m` where `m` is the sensitivity converted to an integer by
truncation toward zero (`|m| ≤ |sensitivity| < |m| + 1` with matching
sign), the same multiplier `m` for every event. -/
theorem sensitivity_integer_truncation (q : ℚ) (v pos : Int) :
    runEvents (configuredSensitivity q) pos (relXEvents [v]) =
        clampPosition (pos + v * configuredSensitivity q) ∧
      |((configuredSensitivity q : Int) : ℚ)| ≤ |q| ∧
      |q| < |((configuredSensitivity q : Int) : ℚ)| + 1 ∧
      0 ≤ ((configuredSensitivity q : Int) : ℚ) * q := by
  refine ⟨by simp [runEvents, relXEvents], ?_⟩
  by_cases h0 : 0 ≤ q
  · rw [configuredSensitivity, if_pos h0]
    have hm : (0 : Int) ≤ ⌊q⌋ := Int.floor_nonneg.mpr h0
    have hmq : (0 : ℚ) ≤ (⌊q⌋ : ℚ) := by exact_mod_cast hm
    rw [abs_of_nonneg h0, abs_of_nonneg hmq]
    exact ⟨Int.floor_le q, Int.lt_floor_add_one q, mul_nonneg hmq h0⟩
  · rw [configuredSensitivity, if_neg h0]
    have hq : q ≤ 0 := le_of_not_le h0
    have hm : ⌈q⌉ ≤ 0 := Int.ceil_le.mpr (by exact_mod_cast hq)
    have hmq : ((⌈q⌉ : Int) : ℚ) ≤ 0 := by exact_mod_cast hm
    rw [abs_of_nonpos hq, abs_of_nonpos hmq]
    have hmul : (0 : ℚ) ≤ -((⌈q⌉ : Int) : ℚ) * -q :=
      mul_nonneg (by linarith) (by linarith)
    rw [neg_mul_neg] at hmul
    refine ⟨neg_le_neg (Int.le_ceil q), ?_, hmul⟩
    have := Int.ceil_lt_add_one q
    linarith

end Mouse2Joy
